import Mathlib

/-!
Shallow embedding of `src/AnagramExplorer.py` (class `AnagramExplorer`) and
verification of the specification's claims about it.

Python strings become `String` (a list of `Char`), Python `list[str]` becomes
`List String`, the Python `dict` built by `get_lookup_dict` becomes an
insertion-ordered association list (updating an existing key keeps its
position, a new key is appended at the end — exactly Python's dict order
semantics).  Fallible code returns `Option`/`Except`: a Python exception is
`none` / `Except.error`.
-/

/-- A corpus is the `all_words : list[str]` constructor argument. -/
abbrev Corpus := List String

/-- The insertion-ordered dictionary built by `get_lookup_dict`:
keys are sorted-character tuples, values are lists of corpus words. -/
abbrev Lookup := List (List Char × List String)

/-- Python exceptions that the source can actually raise. -/
inductive PyError where
  | typeError
  | indexError
deriving DecidableEq

/-- Python `str.lower()` for the ASCII range (the spec's scope excludes
Unicode case folding beyond simple lowercasing): each character `A`–`Z` is
shifted to its lowercase form, every other character is unchanged.
`Char.toLower` is exactly this ASCII mapping. -/
def pyLower (s : String) : String := ⟨s.data.map Char.toLower⟩

/-- Number of occurrences of the character `c` in `l`; the value stored under
key `c` in the Python frequency dicts `dict1` / `dict2` of
`is_valid_anagram_pair` (line 30-33), with `0` meaning "key absent". -/
def countc (l : List Char) (c : Char) : Nat :=
  (l.filter (fun x => decide (x = c))).length

/-- Python `dict1 == dict2` for the two character-frequency dicts: equal key
sets with equal counts, i.e. every character occurring in either list occurs
equally often in both. -/
def dictEq (l1 l2 : List Char) : Bool :=
  (l1 ++ l2).all (fun c => countc l1 c == countc l2 c)

/-- Lines 25-37 of `src/AnagramExplorer.py` (`is_valid_anagram_pair`).
Both words are lowercased; if either is missing from the corpus the function
returns `False`.  The loop `for i in range(len(word1))` builds `dict1` from
`word1` and `dict2` from `word2[i]` for the same indices: when `word2` is
shorter than `word1` the access `word2[i]` raises `IndexError` (modelled as
`none`), and when `word2` is longer only its first `len(word1)` characters
are counted.  Then each element of `letters` must be a key of `dict1`
(a character of `word1`), otherwise `False`; finally `dict1 == dict2`. -/
def is_valid_anagram_pair (corpus : Corpus) (pair : String × String)
    (letters : List Char) : Option Bool :=
  let word1 := pyLower pair.1
  let word2 := pyLower pair.2
  if word1 ∉ corpus ∨ word2 ∉ corpus then
    some false
  else if word2.data.length < word1.data.length then
    none
  else
    let l1 := word1.data
    let l2 := word2.data.take word1.data.length
    if letters.all (fun c => decide (c ∈ l1)) then some (dictEq l1 l2)
    else some false

/-- Canonical key of a word: Python `tuple(sorted(list(word)))` (line 51).
The word is used exactly as stored — no lowercasing happens here. -/
def sortChars (w : String) : List Char :=
  List.insertionSort (fun a b => a ≤ b) w.data

/-- Python string comparison `a < b`, lexicographic by code point: a shorter
list that is a proper prefix is smaller, otherwise the first differing
character decides. -/
def charListLt : List Char → List Char → Bool
  | [], [] => false
  | [], _ :: _ => true
  | _ :: _, [] => false
  | a :: as, b :: bs => if a < b then true else if b < a then false else charListLt as bs

/-- Python `a < b` on strings. -/
def pyStrLt (a b : String) : Bool := charListLt a.data b.data

/-- The (non-strict) order underlying Python `sorted` on strings. -/
def pyStrLe (a b : String) : Prop := pyStrLt b a = false

instance : DecidableRel pyStrLe := fun a b => decEq (pyStrLt b a) false

/-- Python `sorted(self.corpus)` (line 50): lexicographic (code-point) string
order.  `sorted` is a stable sort, and since string order is total and
antisymmetric its output is the unique sorted permutation, which
`List.insertionSort` also produces. -/
def sortedCorpus (corpus : Corpus) : Corpus :=
  List.insertionSort pyStrLe corpus

/-- Python `lookup[key] = lookup.get(key, []) + [word]` (line 52) on an
insertion-ordered dict: if the key is present its group is extended in
place, otherwise the new key is appended at the end. -/
def dictInsert : Lookup → List Char → String → Lookup
  | [], k, w => [(k, [w])]
  | (k0, g) :: rest, k, w =>
    if k0 = k then (k0, g ++ [w]) :: rest else (k0, g) :: dictInsert rest k w

/-- One iteration of the `for word in sorted(self.corpus)` loop of
`get_lookup_dict` (lines 50-52). -/
def buildStep (lookup : Lookup) (word : String) : Lookup :=
  dictInsert lookup (sortChars word) word

/-- Lines 39-54 of `src/AnagramExplorer.py` (`get_lookup_dict`): fold the
loop body over the lexicographically sorted corpus, starting from the empty
dict. -/
def get_lookup_dict (corpus : Corpus) : Lookup :=
  (sortedCorpus corpus).foldl buildStep []

/-- Lines 56-75 of `src/AnagramExplorer.py` (`get_all_anagrams`).  The body
evaluates `self.get_lookup_dict(self.corpus)` (line 71): `get_lookup_dict`
is declared with no parameter besides `self` (line 39), so this call passes
one positional argument too many and Python raises `TypeError` before any of
the loop below it runs.  Every call therefore fails. -/
def get_all_anagrams (corpus : Corpus) (letters : List Char) :
    Except PyError (Finset String) :=
  Except.error PyError.typeError

/-- Lines 77-88 of `src/AnagramExplorer.py` (`get_most_anagrams`).  Like
`get_all_anagrams`, the body evaluates `self.get_lookup_dict(self.corpus)`
(line 81), an arity error: every call raises `TypeError`. -/
def get_most_anagrams (corpus : Corpus) (letters : List Char) :
    Except PyError (List String) :=
  Except.error PyError.typeError

/-- Loop body of `get_all_anagrams` (lines 70-75) as it would execute had
`get_lookup_dict` been invoked per its signature (the intent documented by
its docstring, whose `Args` lists the corpus): every word of every group of
size `> 1` is added to the result set. -/
def get_all_anagrams_body (corpus : Corpus) (letters : List Char) :
    Finset String :=
  ((get_lookup_dict corpus).map Prod.snd).foldl
    (fun all_anagrams anagrams =>
      if 1 < anagrams.length then
        anagrams.foldl (fun s a => insert a s) all_anagrams
      else all_anagrams) ∅

/-- Python list comparison `a < b` for lists of strings: lexicographic,
a strict proper prefix is smaller. -/
def pyListLt : List String → List String → Bool
  | [], [] => false
  | [], _ :: _ => true
  | _ :: _, [] => false
  | a :: as, b :: bs =>
    if pyStrLt a b then true else if pyStrLt b a then false else pyListLt as bs

/-- Order used by Python `sorted` on lists of lists of strings. -/
def pyListLe (x y : List String) : Prop := pyListLt y x = false

instance : DecidableRel pyListLe := fun x y => decEq (pyListLt y x) false

/-- One iteration of the loop of `get_most_anagrams` (lines 81-86):
a group whose size equals the running maximum is appended, a strictly larger
group resets the collection and raises the maximum, smaller groups
(including all singletons, since the baseline is 2) are skipped. -/
def mostStep (acc : Nat × List (List String)) (v : List String) :
    Nat × List (List String) :=
  if v.length = acc.1 then (acc.1, acc.2 ++ [v])
  else if acc.1 < v.length then (v.length, [v])
  else acc

/-- Loop body of `get_most_anagrams` (lines 79-88) as it would execute had
`get_lookup_dict` been invoked per its signature: fold `mostStep` over the
groups starting from `max_value = 2`, then return `value[0]` of each
collected group in Python-sorted order (`value[0]` is `List.headI`; the
collected groups are nonempty, so the default never arises). -/
def get_most_anagrams_body (corpus : Corpus) (letters : List Char) :
    List String :=
  let most := ((get_lookup_dict corpus).map Prod.snd).foldl mostStep (2, [])
  (List.insertionSort pyListLe most.2).map List.headI

/-- Python `lookup.get(k, [])`: the group stored under key `k`, or `[]` when
the key is absent. -/
def groupOf : Lookup → List Char → List String
  | [], _ => []
  | (k0, g) :: rest, k => if k0 = k then g else groupOf rest k

/-- All words stored in the dictionary, in group order. -/
def valuesJoin (d : Lookup) : List String := (d.map Prod.snd).flatten

/-- The object state set up by `__init__` (lines 4-6): the corpus and the
memoized `anagram_lookup` computed once from it. -/
structure AnagramExplorer where
  corpus : Corpus
  anagram_lookup : Lookup

/-- Lines 4-6 of `src/AnagramExplorer.py` (`__init__`): store the word list
and build the lookup dict once. -/
def AnagramExplorer.init (all_words : Corpus) : AnagramExplorer :=
  { corpus := all_words, anagram_lookup := get_lookup_dict all_words }

/-! ### The embedded Python string order is total and transitive -/

theorem charListLt_asymm :
    ∀ x y : List Char, charListLt x y = true → charListLt y x = false
  | [], [] => by simp [charListLt]
  | [], _ :: _ => by simp [charListLt]
  | _ :: _, [] => by simp [charListLt]
  | a :: as, b :: bs => by
    simp only [charListLt]
    by_cases hab : a < b
    · have hba : ¬ b < a := lt_asymm hab
      simp [hab, hba]
    · by_cases hba : b < a
      · simp [hab, hba]
      · simp only [if_neg hab, if_neg hba]
        exact charListLt_asymm as bs

theorem charListLt_antisymm :
    ∀ x y : List Char, charListLt x y = false → charListLt y x = false → x = y
  | [], [] => by simp
  | [], _ :: _ => by simp [charListLt]
  | _ :: _, [] => by simp [charListLt]
  | a :: as, b :: bs => by
    simp only [charListLt]
    by_cases hab : a < b
    · simp [hab]
    · by_cases hba : b < a
      · simp [hab, hba]
      · have hab2 : a = b := le_antisymm (not_lt.mp hba) (not_lt.mp hab)
        subst hab2
        simp only [if_neg hab, if_neg hba]
        intro h1 h2
        rw [charListLt_antisymm as bs h1 h2]

theorem charListLt_trans (x : List Char) :
    ∀ y z : List Char, charListLt x y = true → charListLt y z = true →
      charListLt x z = true := by
  induction x with
  | nil =>
    intro y z hxy hyz
    cases y with
    | nil => simp [charListLt] at hxy
    | cons b bs =>
      cases z with
      | nil => simp [charListLt] at hyz
      | cons c cs => simp [charListLt]
  | cons a as ih =>
    intro y z hxy hyz
    cases y with
    | nil => simp [charListLt] at hxy
    | cons b bs =>
      cases z with
      | nil => simp [charListLt] at hyz
      | cons c cs =>
        simp only [charListLt] at hxy hyz ⊢
        by_cases hab : a < b
        · by_cases hbc : b < c
          · simp [lt_trans hab hbc]
          · by_cases hcb : c < b
            · simp [hbc, hcb] at hyz
            · have hbc2 : b = c := le_antisymm (not_lt.mp hcb) (not_lt.mp hbc)
              subst hbc2
              simp [hab]
        · by_cases hba : b < a
          · simp [hab, hba] at hxy
          · have hab2 : a = b := le_antisymm (not_lt.mp hba) (not_lt.mp hab)
            subst hab2
            simp only [if_neg hab, lt_irrefl, if_neg (lt_irrefl a)] at hxy
            by_cases hac : a < c
            · simp [hac]
            · by_cases hca : c < a
              · simp [hac, hca] at hyz
              · simp only [if_neg hac, if_neg hca] at hyz ⊢
                exact ih bs cs hxy hyz

theorem pyStrLe_total (a b : String) : pyStrLe a b ∨ pyStrLe b a := by
  unfold pyStrLe pyStrLt
  cases h : charListLt b.data a.data
  · exact Or.inl rfl
  · exact Or.inr (charListLt_asymm _ _ h)

theorem pyStrLe_trans (a b c : String) (h1 : pyStrLe a b) (h2 : pyStrLe b c) :
    pyStrLe a c := by
  unfold pyStrLe pyStrLt at h1 h2 ⊢
  cases h3 : charListLt c.data a.data
  · rfl
  · exfalso
    cases hab : charListLt a.data b.data
    · have hh : a.data = b.data := charListLt_antisymm _ _ hab h1
      rw [hh] at h3
      rw [h3] at h2
      exact Bool.noConfusion h2
    · have hcb := charListLt_trans _ _ _ h3 hab
      rw [hcb] at h2
      exact Bool.noConfusion h2

theorem sortedCorpus_sorted (corpus : Corpus) :
    (sortedCorpus corpus).Sorted pyStrLe := by
  haveI : IsTotal String pyStrLe := ⟨pyStrLe_total⟩
  haveI : IsTrans String pyStrLe := ⟨pyStrLe_trans⟩
  exact List.sorted_insertionSort pyStrLe corpus

theorem sortedCorpus_perm (corpus : Corpus) :
    List.Perm (sortedCorpus corpus) corpus :=
  List.perm_insertionSort pyStrLe corpus

/-! ### Character counts and Python dict equality -/

theorem countc_cons (a : Char) (l : List Char) (c : Char) :
    countc (a :: l) c = countc l c + (if a = c then 1 else 0) := by
  by_cases h : a = c <;> simp [countc, List.filter_cons, h]

theorem countc_pos (l : List Char) (c : Char) : 0 < countc l c ↔ c ∈ l := by
  simp [countc, List.length_pos_iff_exists_mem, List.mem_filter]

theorem countc_perm (l1 l2 : List Char) (h : List.Perm l1 l2) (c : Char) :
    countc l1 c = countc l2 c :=
  (h.filter _).length_eq

theorem perm_of_countc (l1 : List Char) :
    ∀ l2, (∀ c, countc l1 c = countc l2 c) → List.Perm l1 l2 := by
  induction l1 with
  | nil =>
    intro l2 h
    cases l2 with
    | nil => exact List.Perm.refl []
    | cons b bs =>
      exfalso
      have hb := h b
      have h1 : countc ([] : List Char) b = 0 := rfl
      have h2 : 0 < countc (b :: bs) b := (countc_pos _ _).mpr (List.mem_cons_self b bs)
      omega
  | cons a as ih =>
    intro l2 h
    have ha : a ∈ l2 := by
      have h1 := h a
      have h2 : 0 < countc (a :: as) a := (countc_pos _ _).mpr (List.mem_cons_self a as)
      exact (countc_pos _ _).mp (h1 ▸ h2)
    have hperm := List.perm_cons_erase ha
    have htails : ∀ c, countc as c = countc (l2.erase a) c := by
      intro c
      have hc := h c
      have h2 := countc_perm _ _ hperm c
      rw [countc_cons] at hc
      rw [countc_cons] at h2
      by_cases hac : a = c
      · subst hac
        simp at hc h2
        omega
      · simp [hac] at hc h2
        omega
    exact ((ih _ htails).cons a).trans hperm.symm

theorem dictEq_iff (l1 l2 : List Char) :
    dictEq l1 l2 = true ↔ ∀ c, countc l1 c = countc l2 c := by
  unfold dictEq
  rw [List.all_eq_true]
  constructor
  · intro h c
    by_cases hc : c ∈ l1 ++ l2
    · simpa using h c hc
    · rw [List.mem_append] at hc
      push_neg at hc
      have h1 : countc l1 c = 0 := by
        by_contra hne
        exact hc.1 ((countc_pos l1 c).mp (Nat.pos_of_ne_zero hne))
      have h2 : countc l2 c = 0 := by
        by_contra hne
        exact hc.2 ((countc_pos l2 c).mp (Nat.pos_of_ne_zero hne))
      simp [h1, h2]
  · intro h c _
    simp [h c]

theorem dictEq_iff_perm (l1 l2 : List Char) :
    dictEq l1 l2 = true ↔ List.Perm l1 l2 := by
  rw [dictEq_iff]
  constructor
  · exact perm_of_countc l1 l2
  · intro h c
    exact countc_perm _ _ h c

theorem dictEq_refl (l : List Char) : dictEq l l = true :=
  (dictEq_iff l l).mpr fun _ => rfl

theorem dictEq_symm (l1 l2 : List Char) : dictEq l1 l2 = dictEq l2 l1 := by
  cases h1 : dictEq l1 l2 <;> cases h2 : dictEq l2 l1 <;> try rfl
  · have h3 := ((dictEq_iff_perm l2 l1).mp h2).symm
    rw [(dictEq_iff_perm l1 l2).mpr h3] at h1
    exact Bool.noConfusion h1
  · have h3 := ((dictEq_iff_perm l1 l2).mp h1).symm
    rw [(dictEq_iff_perm l2 l1).mpr h3] at h2
    exact Bool.noConfusion h2

theorem dictEq_mem_iff (l1 l2 : List Char) (h : dictEq l1 l2 = true) (c : Char) :
    c ∈ l1 ↔ c ∈ l2 :=
  ((dictEq_iff_perm l1 l2).mp h).mem_iff

/-! ### Structure of the dictionary built by `get_lookup_dict` -/

theorem groupOf_dictInsert (d : Lookup) (k : List Char) (w : String) (q : List Char) :
    groupOf (dictInsert d k w) q =
      if k = q then groupOf d q ++ [w] else groupOf d q := by
  induction d with
  | nil => by_cases h : k = q <;> simp [dictInsert, groupOf, h]
  | cons kv rest ih =>
    obtain ⟨k0, g0⟩ := kv
    by_cases h0 : k0 = k
    · subst h0
      by_cases h1 : k0 = q
      · subst h1
        simp [dictInsert, groupOf]
      · simp [dictInsert, groupOf, h1]
    · by_cases h1 : k0 = q
      · subst h1
        have hkq : ¬ k = k0 := fun h => h0 h.symm
        simp [dictInsert, groupOf, h0, hkq]
      · simp [dictInsert, groupOf, h0, h1, ih]

theorem groupOf_build (l : List String) :
    ∀ d q, groupOf (l.foldl buildStep d) q =
      groupOf d q ++ l.filter (fun w => decide (sortChars w = q)) := by
  induction l with
  | nil =>
    intro d q
    simp
  | cons w l ih =>
    intro d q
    rw [List.foldl_cons, ih]
    unfold buildStep
    rw [groupOf_dictInsert]
    by_cases h : sortChars w = q
    · simp [h, List.filter_cons]
    · simp [h, List.filter_cons]

theorem groupOf_lookup (corpus : Corpus) (q : List Char) :
    groupOf (get_lookup_dict corpus) q =
      (sortedCorpus corpus).filter (fun w => decide (sortChars w = q)) := by
  have h := groupOf_build (sortedCorpus corpus) [] q
  simpa [get_lookup_dict, groupOf] using h

theorem keys_dictInsert (d : Lookup) (k : List Char) (w : String) :
    (dictInsert d k w).map Prod.fst =
      if k ∈ d.map Prod.fst then d.map Prod.fst else d.map Prod.fst ++ [k] := by
  induction d with
  | nil => simp [dictInsert]
  | cons kv rest ih =>
    obtain ⟨k0, g0⟩ := kv
    by_cases h0 : k0 = k
    · subst h0
      simp [dictInsert]
    · have hne : ¬ k = k0 := fun h => h0 h.symm
      simp only [dictInsert, if_neg h0, List.map_cons, ih]
      by_cases hm : k ∈ rest.map Prod.fst
      · simp [hm, hne]
      · simp [hm, hne]

theorem keys_nodup_dictInsert (d : Lookup) (k : List Char) (w : String)
    (h : (d.map Prod.fst).Nodup) : ((dictInsert d k w).map Prod.fst).Nodup := by
  rw [keys_dictInsert]
  by_cases hm : k ∈ d.map Prod.fst
  · simpa [hm] using h
  · rw [if_neg hm, List.nodup_append]
    refine ⟨h, List.nodup_singleton k, ?_⟩
    intro x hx hk
    simp at hk
    subst hk
    exact hm hx

theorem keys_nodup_build (l : List String) :
    ∀ d, (d.map Prod.fst).Nodup → ((l.foldl buildStep d).map Prod.fst).Nodup := by
  induction l with
  | nil =>
    intro d h
    simpa using h
  | cons w l ih =>
    intro d h
    rw [List.foldl_cons]
    exact ih _ (keys_nodup_dictInsert _ _ _ h)

theorem lookup_keys_nodup (corpus : Corpus) :
    ((get_lookup_dict corpus).map Prod.fst).Nodup :=
  keys_nodup_build _ [] (by simp)

theorem keyInv_dictInsert (k : List Char) (w : String) (hk : k = sortChars w) :
    ∀ d : Lookup, (∀ kv ∈ d, ∀ x ∈ kv.2, sortChars x = kv.1) →
      ∀ kv ∈ dictInsert d k w, ∀ x ∈ kv.2, sortChars x = kv.1 := by
  intro d
  induction d with
  | nil =>
    intro _ kv hkv x hx
    simp [dictInsert] at hkv
    subst hkv
    simp at hx
    subst hx
    exact hk.symm
  | cons kv0 rest ih =>
    obtain ⟨k0, g0⟩ := kv0
    intro h kv hkv x hx
    by_cases h0 : k0 = k
    · rw [show dictInsert ((k0, g0) :: rest) k w = (k0, g0 ++ [w]) :: rest by
        simp [dictInsert, h0]] at hkv
      rcases List.mem_cons.mp hkv with h1 | h1
      · subst h1
        rcases List.mem_append.mp hx with h2 | h2
        · exact h (k0, g0) (List.mem_cons_self _ _) x h2
        · simp at h2
          subst h2
          rw [hk.symm, h0]
      · exact h kv (List.mem_cons_of_mem _ h1) x hx
    · rw [show dictInsert ((k0, g0) :: rest) k w = (k0, g0) :: dictInsert rest k w by
        simp [dictInsert, h0]] at hkv
      rcases List.mem_cons.mp hkv with h1 | h1
      · subst h1
        exact h (k0, g0) (List.mem_cons_self _ _) x hx
      · exact ih (fun kv2 h2 => h kv2 (List.mem_cons_of_mem _ h2)) kv h1 x hx

theorem keyInv_build (l : List String) :
    ∀ d, (∀ kv ∈ d, ∀ x ∈ kv.2, sortChars x = kv.1) →
      ∀ kv ∈ l.foldl buildStep d, ∀ x ∈ kv.2, sortChars x = kv.1 := by
  induction l with
  | nil =>
    intro d h
    simpa using h
  | cons w l ih =>
    intro d h
    rw [List.foldl_cons]
    exact ih _ (keyInv_dictInsert _ w rfl d h)

theorem lookup_keyInv (corpus : Corpus) :
    ∀ kv ∈ get_lookup_dict corpus, ∀ x ∈ kv.2, sortChars x = kv.1 :=
  keyInv_build _ [] (by simp)

theorem groupOf_eq_of_mem :
    ∀ d : Lookup, (d.map Prod.fst).Nodup → ∀ kv ∈ d, groupOf d kv.1 = kv.2 := by
  intro d
  induction d with
  | nil =>
    intro _ kv hkv
    simp at hkv
  | cons kv0 rest ih =>
    obtain ⟨k0, g0⟩ := kv0
    intro hnd kv hkv
    rcases List.mem_cons.mp hkv with h1 | h1
    · subst h1
      simp [groupOf]
    · have hk0 : ¬ k0 = kv.1 := by
        intro he
        have hmem : kv.1 ∈ rest.map Prod.fst := List.mem_map_of_mem Prod.fst h1
        rw [List.map_cons, List.nodup_cons] at hnd
        exact hnd.1 (he ▸ hmem)
      rw [List.map_cons, List.nodup_cons] at hnd
      simp only [groupOf, if_neg hk0]
      exact ih hnd.2 kv h1

theorem mem_of_groupOf_ne_nil :
    ∀ (d : Lookup) (q : List Char), groupOf d q ≠ [] → (q, groupOf d q) ∈ d := by
  intro d
  induction d with
  | nil =>
    intro q h
    exact absurd rfl h
  | cons kv0 rest ih =>
    obtain ⟨k0, g0⟩ := kv0
    intro q h
    by_cases h0 : k0 = q
    · subst h0
      simp only [groupOf, if_pos rfl]
      exact List.mem_cons_self _ _
    · simp only [groupOf, if_neg h0] at h ⊢
      exact List.mem_cons_of_mem _ (ih q h)

theorem valuesJoin_dictInsert (d : Lookup) (k : List Char) (w : String) :
    List.Perm (valuesJoin (dictInsert d k w)) (w :: valuesJoin d) := by
  induction d with
  | nil => simp [dictInsert, valuesJoin]
  | cons kv rest ih =>
    obtain ⟨k0, g0⟩ := kv
    by_cases h0 : k0 = k
    · simp only [dictInsert, if_pos h0, valuesJoin, List.map_cons, List.flatten_cons]
      rw [List.append_assoc, List.singleton_append]
      exact List.perm_middle
    · simp only [dictInsert, if_neg h0, valuesJoin, List.map_cons, List.flatten_cons]
      have h1 : List.Perm (g0 ++ valuesJoin (dictInsert rest k w))
          (g0 ++ (w :: valuesJoin rest)) := ih.append_left g0
      have h2 : List.Perm (g0 ++ (w :: valuesJoin rest)) (w :: (g0 ++ valuesJoin rest)) :=
        List.perm_middle
      simpa [valuesJoin] using h1.trans h2

theorem valuesJoin_build (l : List String) :
    ∀ d, List.Perm (valuesJoin (l.foldl buildStep d)) (valuesJoin d ++ l) := by
  induction l with
  | nil =>
    intro d
    simp
  | cons w l ih =>
    intro d
    rw [List.foldl_cons]
    have h1 := ih (buildStep d w)
    have h2 : List.Perm (valuesJoin (buildStep d w) ++ l) ((w :: valuesJoin d) ++ l) :=
      List.Perm.append_right l (valuesJoin_dictInsert d (sortChars w) w)
    have h3 : List.Perm (valuesJoin d ++ (w :: l)) (w :: (valuesJoin d ++ l)) :=
      List.perm_middle
    exact (h1.trans h2).trans h3.symm

theorem lookup_valuesJoin_perm (corpus : Corpus) :
    List.Perm (valuesJoin (get_lookup_dict corpus)) (sortedCorpus corpus) := by
  have h := valuesJoin_build (sortedCorpus corpus) []
  simpa [get_lookup_dict, valuesJoin] using h

/-! ### Unfolding the validator -/

theorem valid_pair_eq (corpus : Corpus) (a b : String) (letters : List Char) :
    is_valid_anagram_pair corpus (a, b) letters =
      if pyLower a ∉ corpus ∨ pyLower b ∉ corpus then some false
      else if (pyLower b).data.length < (pyLower a).data.length then none
      else if letters.all (fun c => decide (c ∈ (pyLower a).data)) then
        some (dictEq (pyLower a).data ((pyLower b).data.take (pyLower a).data.length))
      else some false := rfl

/-! ### Claims -/

/-- Claim C7: for every corpus, each word occurrence is placed in exactly one
group of the lookup dictionary (two groups containing a common word are the
same entry), and the multiset union of all groups' words equals the sorted
corpus. -/
theorem partition_invariant (corpus : Corpus) :
    (∀ kv1 ∈ get_lookup_dict corpus, ∀ kv2 ∈ get_lookup_dict corpus,
       ∀ w : String, w ∈ kv1.2 → w ∈ kv2.2 → kv1 = kv2) ∧
    (valuesJoin (get_lookup_dict corpus) : Multiset String) =
      (sortedCorpus corpus : Multiset String) := by
  constructor
  · intro kv1 h1 kv2 h2 w hw1 hw2
    have e1 : sortChars w = kv1.1 := lookup_keyInv corpus kv1 h1 w hw1
    have e2 : sortChars w = kv2.1 := lookup_keyInv corpus kv2 h2 w hw2
    exact List.inj_on_of_nodup_map (lookup_keys_nodup corpus) h1 h2 (e1.symm.trans e2)
  · exact Multiset.coe_eq_coe.mpr (lookup_valuesJoin_perm corpus)

theorem partition_invariant_wit :
    ((['a', 'r', 't'], ["rat", "tar"]) : List Char × List String) =
      (['a', 'r', 't'], ["rat", "tar"]) :=
  (partition_invariant (["rat", "tar"])).1 (['a', 'r', 't'], ["rat", "tar"]) (by decide)
    (['a', 'r', 't'], ["rat", "tar"]) (by decide) ("rat") (by decide) (by decide)

/-- Claim C8: two corpus words lie in a common group of the lookup dictionary
iff sorting their characters yields identical sequences, and every group
lists its members in lexicographically sorted (Python string) order. -/
theorem canonical_key_grouping (corpus : Corpus) :
    (∀ w1 ∈ corpus, ∀ w2 ∈ corpus,
       ((∃ kv ∈ get_lookup_dict corpus, w1 ∈ kv.2 ∧ w2 ∈ kv.2) ↔
         sortChars w1 = sortChars w2)) ∧
    (∀ kv ∈ get_lookup_dict corpus, kv.2.Sorted pyStrLe) := by
  constructor
  · intro w1 h1 w2 h2
    constructor
    · rintro ⟨kv, hkv, hw1, hw2⟩
      rw [lookup_keyInv corpus kv hkv w1 hw1, lookup_keyInv corpus kv hkv w2 hw2]
    · intro heq
      have hm1 : w1 ∈ groupOf (get_lookup_dict corpus) (sortChars w1) := by
        rw [groupOf_lookup, List.mem_filter]
        exact ⟨(sortedCorpus_perm corpus).mem_iff.mpr h1, by simp⟩
      have hm2 : w2 ∈ groupOf (get_lookup_dict corpus) (sortChars w1) := by
        rw [groupOf_lookup, List.mem_filter]
        exact ⟨(sortedCorpus_perm corpus).mem_iff.mpr h2, by simp [heq]⟩
      have hne : groupOf (get_lookup_dict corpus) (sortChars w1) ≠ [] := by
        intro h0
        rw [h0] at hm1
        exact absurd hm1 (List.not_mem_nil w1)
      exact ⟨(sortChars w1, groupOf (get_lookup_dict corpus) (sortChars w1)),
        mem_of_groupOf_ne_nil _ _ hne, hm1, hm2⟩
  · intro kv hkv
    have h1 : groupOf (get_lookup_dict corpus) kv.1 = kv.2 :=
      groupOf_eq_of_mem _ (lookup_keys_nodup corpus) kv hkv
    rw [← h1, groupOf_lookup]
    exact List.Pairwise.filter _ (sortedCorpus_sorted corpus)

theorem canonical_key_grouping_wit :
    ∃ kv ∈ get_lookup_dict (["rat", "tar"]), "rat" ∈ kv.2 ∧ "tar" ∈ kv.2 :=
  ((canonical_key_grouping (["rat", "tar"])).1 ("rat") (by decide) ("tar")
    (by decide)).mpr (by decide)

/-- Claim C9: a word whose lowercase form is in the corpus, paired with
itself, with every letter of `letters` occurring in its lowercase form, is
accepted by the validator. -/
theorem self_pair_accepted (corpus : Corpus) (w : String) (letters : List Char)
    (hmem : pyLower w ∈ corpus) (hcov : ∀ c ∈ letters, c ∈ (pyLower w).data) :
    is_valid_anagram_pair corpus (w, w) letters = some true := by
  have h1 : ¬ (pyLower w ∉ corpus ∨ pyLower w ∉ corpus) := by simp [hmem]
  have h2 : ¬ ((pyLower w).data.length < (pyLower w).data.length) := lt_irrefl _
  have h3 : letters.all (fun c => decide (c ∈ (pyLower w).data)) = true :=
    List.all_eq_true.mpr fun c hc => decide_eq_true (hcov c hc)
  rw [valid_pair_eq, if_neg h1, if_neg h2, if_pos h3, List.take_length, dictEq_refl]

theorem self_pair_accepted_wit :
    is_valid_anagram_pair (["rat", "tar"]) (("rat", "rat")) (['r', 'a', 't']) =
      some true :=
  self_pair_accepted (["rat", "tar"]) ("rat") (['r', 'a', 't']) (by decide) (by decide)

/-- Claim C10: the lookup dictionary recomputed by `get_lookup_dict` on the
corpus stored at construction coincides with the `anagram_lookup` memoized by
`__init__`; in this pure embedding the recomputation is deterministic, so the
two are definitionally the same mapping. -/
theorem lookup_memoization_consistent (all_words : Corpus) :
    get_lookup_dict (AnagramExplorer.init all_words).corpus =
      (AnagramExplorer.init all_words).anagram_lookup := rfl

/-- Claim C1: evaluation of the documented operations at concrete inputs of
their declared types shows failure signals: `get_all_anagrams` and
`get_most_anagrams` raise `TypeError` on every call (they pass `self.corpus`
to the zero-argument `get_lookup_dict`), and `is_valid_anagram_pair` raises
`IndexError` when the first word is longer than the second and both pass the
corpus check. -/
theorem documented_ops_not_total :
    get_all_anagrams (["rat", "tar"]) (['r']) = Except.error PyError.typeError ∧
    get_most_anagrams (["rat", "tar"]) (['r']) = Except.error PyError.typeError ∧
    is_valid_anagram_pair (["stop", "pot"]) (("stop", "pot")) ([]) = none :=
  ⟨rfl, rfl, by decide⟩

/-- Claim C2: the call `get_most_anagrams(letters)` raises `TypeError` on the
spec's own scenario (corpus `["abed", "bead", "mouse"]`) instead of returning
`["abed"]`; the loop body with the arity slip repaired does return exactly
the claimed `["abed"]`. -/
theorem most_anagrams_call_raises :
    get_most_anagrams (["abed", "bead", "mouse"]) (['a']) =
      Except.error PyError.typeError ∧
    get_most_anagrams_body (["abed", "bead", "mouse"]) (['a']) = ["abed"] :=
  ⟨rfl, by decide⟩

/-- Claim C3: the call `get_all_anagrams(letters)` raises `TypeError` even on
the empty corpus instead of returning the empty set; the loop body with the
arity slip repaired returns exactly the docstring's example set for the
docstring's example corpus. -/
theorem all_anagrams_call_raises :
    get_all_anagrams ([]) ([]) = Except.error PyError.typeError ∧
    get_all_anagrams_body
        (["abed", "mouse", "bead", "baled", "abled", "rat", "blade"]) ([]) =
      {"abed", "abled", "baled", "bead", "blade"} :=
  ⟨rfl, by decide⟩

/-- Claim C4 counterexample: both lowercased words are in the corpus, the
coverage check passes vacuously (`letters = []`), the validator returns
`True`, yet the complete character multisets of "ab" and "aba" differ — the
claimed iff with complete-multiset equality fails, because only the first
`len(word_a)` characters of `word_b` are counted. -/
theorem pair_truncation_cex :
    is_valid_anagram_pair (["ab", "aba"]) (("ab", "aba")) ([]) = some true ∧
    ¬ ((pyLower ("ab")).data : Multiset Char) = ((pyLower ("aba")).data : Multiset Char) :=
  ⟨by decide, by decide⟩

/-- Claim C4 amended: under the claim's hypotheses and when lowercased
`word_a` is no longer than lowercased `word_b`, the validator returns true
iff `word_a`'s character multiset equals the multiset of the first
`len(word_a)` characters of `word_b`; complete-multiset equality is
recovered exactly when the lengths are equal. -/
theorem pair_valid_iff_prefix_multiset_eq (corpus : Corpus) (a b : String)
    (letters : List Char)
    (ha : pyLower a ∈ corpus) (hb : pyLower b ∈ corpus)
    (hcov : ∀ c ∈ letters, c ∈ (pyLower a).data)
    (hlen : (pyLower a).data.length ≤ (pyLower b).data.length) :
    is_valid_anagram_pair corpus (a, b) letters = some true ↔
      ((pyLower a).data : Multiset Char) =
        (((pyLower b).data.take (pyLower a).data.length : List Char) : Multiset Char) := by
  have h1 : ¬ (pyLower a ∉ corpus ∨ pyLower b ∉ corpus) := by simp [ha, hb]
  have h2 : ¬ ((pyLower b).data.length < (pyLower a).data.length) := not_lt.mpr hlen
  have h3 : letters.all (fun c => decide (c ∈ (pyLower a).data)) = true :=
    List.all_eq_true.mpr fun c hc => decide_eq_true (hcov c hc)
  rw [valid_pair_eq, if_neg h1, if_neg h2, if_pos h3]
  constructor
  · intro h
    exact Multiset.coe_eq_coe.mpr ((dictEq_iff_perm _ _).mp (Option.some.inj h))
  · intro h
    rw [(dictEq_iff_perm _ _).mpr (Multiset.coe_eq_coe.mp h)]

theorem pair_valid_iff_prefix_multiset_eq_wit :
    is_valid_anagram_pair (["stop", "pots"]) (("stop", "pots")) (['s', 't', 'o', 'p']) =
      some true :=
  (pair_valid_iff_prefix_multiset_eq (["stop", "pots"]) ("stop") ("pots")
    (['s', 't', 'o', 'p']) (by decide) (by decide) (by decide) (by decide)).mpr (by decide)

/-- Claim C5 counterexample: the corpus words "A" and "a" have equal
lowercase forms (hence lowercase anagrams of each other), yet no group of the
lookup dictionary contains both — the canonical key is not computed from the
lowercase form. -/
theorem case_key_cex :
    pyLower ("A") = pyLower ("a") ∧
    ¬ ∃ kv ∈ get_lookup_dict (["A", "a"]), "A" ∈ kv.2 ∧ "a" ∈ kv.2 :=
  ⟨by decide, by decide⟩

/-- Claim C5 amended: the validator lowercases its two words (its result
depends only on their lowercase forms), but the canonical key of a corpus
word is computed from the word as stored, not from its lowercase form; so
corpus words differing only in case can land in different groups. -/
theorem case_normalization_actual :
    (∀ corpus : Corpus, ∀ kv ∈ get_lookup_dict corpus, ∀ w ∈ kv.2,
       kv.1 = sortChars w) ∧
    (∀ (corpus : Corpus) (a1 b1 a2 b2 : String) (letters : List Char),
       pyLower a1 = pyLower a2 → pyLower b1 = pyLower b2 →
       is_valid_anagram_pair corpus (a1, b1) letters =
         is_valid_anagram_pair corpus (a2, b2) letters) := by
  constructor
  · intro corpus kv hkv w hw
    exact (lookup_keyInv corpus kv hkv w hw).symm
  · intro corpus a1 b1 a2 b2 letters h1 h2
    rw [valid_pair_eq, valid_pair_eq, h1, h2]

theorem case_normalization_actual_wit :
    (['a', 'r', 't'] : List Char) = sortChars ("tar") :=
  (case_normalization_actual).1 (["rat", "tar"]) (['a', 'r', 't'], ["rat", "tar"])
    (by decide) ("tar") (by decide)

/-- Claim C6 counterexample: the letter 'z' is absent from lowercased
word_a = "ab", so the claim demands the result `False`; the call instead
raises `IndexError` (modelled `none`) because word_a is longer than word_b
and the frequency loop indexes word_b out of range before the coverage check
runs. -/
theorem coverage_false_cex :
    ('z' ∉ (pyLower ("ab")).data) ∧
    ¬ is_valid_anagram_pair (["ab", "a"]) (("ab", "a")) (['z']) = some false :=
  ⟨by decide, by decide⟩

/-- Claim C6 amended: if some character of `letters` is absent from
lowercased word_a then the validator returns false, provided that (when both
words pass the corpus check) lowercased word_a is not longer than lowercased
word_b — otherwise `IndexError` preempts the coverage check.  The coverage
check constrains only word_a; nevertheless, whenever both orders of a pair
return a boolean, the booleans are equal: swapping the words can change the
observable outcome only by turning a result into an `IndexError`, as the
concrete pair ("abc", "abcd") shows. -/
theorem coverage_only_constrains_word_a :
    (∀ (corpus : Corpus) (a b : String) (letters : List Char) (c : Char),
       c ∈ letters → c ∉ (pyLower a).data →
       (pyLower a ∈ corpus → pyLower b ∈ corpus →
         (pyLower a).data.length ≤ (pyLower b).data.length) →
       is_valid_anagram_pair corpus (a, b) letters = some false) ∧
    (∀ (corpus : Corpus) (a b : String) (letters : List Char) (r1 r2 : Bool),
       is_valid_anagram_pair corpus (a, b) letters = some r1 →
       is_valid_anagram_pair corpus (b, a) letters = some r2 → r1 = r2) ∧
    (is_valid_anagram_pair (["abc", "abcd"]) (("abc", "abcd")) ([]) = some true ∧
     is_valid_anagram_pair (["abc", "abcd"]) (("abcd", "abc")) ([]) = none) := by
  refine ⟨?_, ?_, by decide, by decide⟩
  · intro corpus a b letters c hc hcnot hlen
    rw [valid_pair_eq]
    by_cases hm : pyLower a ∉ corpus ∨ pyLower b ∉ corpus
    · rw [if_pos hm]
    · rw [if_neg hm]
      push_neg at hm
      rw [if_neg (not_lt.mpr (hlen hm.1 hm.2))]
      have hall : ¬ letters.all (fun x => decide (x ∈ (pyLower a).data)) = true := by
        intro hx
        rw [List.all_eq_true] at hx
        exact hcnot (of_decide_eq_true (hx c hc))
      rw [if_neg hall]
  · intro corpus a b letters r1 r2 h1 h2
    rw [valid_pair_eq] at h1 h2
    by_cases hm : pyLower a ∉ corpus ∨ pyLower b ∉ corpus
    · rw [if_pos hm] at h1
      rw [if_pos (Or.symm hm)] at h2
      exact (Option.some.inj h1).symm.trans (Option.some.inj h2)
    · rw [if_neg hm] at h1
      rw [if_neg (fun h => hm (Or.symm h))] at h2
      by_cases hab : (pyLower b).data.length < (pyLower a).data.length
      · rw [if_pos hab] at h1
        exact Option.noConfusion h1
      · rw [if_neg hab] at h1
        by_cases hba : (pyLower a).data.length < (pyLower b).data.length
        · rw [if_pos hba] at h2
          exact Option.noConfusion h2
        · rw [if_neg hba] at h2
          have hlen : (pyLower a).data.length = (pyLower b).data.length := by omega
          have ht1 : (pyLower b).data.take (pyLower a).data.length = (pyLower b).data := by
            rw [hlen, List.take_length]
          have ht2 : (pyLower a).data.take (pyLower b).data.length = (pyLower a).data := by
            rw [← hlen, List.take_length]
          rw [ht1] at h1
          rw [ht2] at h2
          by_cases hd : dictEq (pyLower a).data (pyLower b).data = true
          · have hd2 : dictEq (pyLower b).data (pyLower a).data = true := by
              rw [dictEq_symm]
              exact hd
            have hcov : (letters.all (fun x => decide (x ∈ (pyLower a).data))) =
                (letters.all (fun x => decide (x ∈ (pyLower b).data))) := by
              have hfun : (fun x => decide (x ∈ (pyLower a).data)) =
                  (fun x => decide (x ∈ (pyLower b).data)) :=
                funext fun x => decide_eq_decide.mpr (dictEq_mem_iff _ _ hd x)
              rw [hfun]
            by_cases hall : letters.all (fun x => decide (x ∈ (pyLower a).data)) = true
            · rw [if_pos hall, hd] at h1
              rw [if_pos (hcov.symm.trans hall), hd2] at h2
              exact (Option.some.inj h1).symm.trans (Option.some.inj h2)
            · rw [if_neg hall] at h1
              rw [if_neg (fun hx => hall (hcov.trans hx))] at h2
              exact (Option.some.inj h1).symm.trans (Option.some.inj h2)
          · have hfalse : dictEq (pyLower a).data (pyLower b).data = false := by
              cases hx : dictEq (pyLower a).data (pyLower b).data
              · rfl
              · exact absurd hx hd
            have hfalse2 : dictEq (pyLower b).data (pyLower a).data = false := by
              rw [dictEq_symm]
              exact hfalse
            have e1 : r1 = false := by
              by_cases hall : letters.all (fun x => decide (x ∈ (pyLower a).data)) = true
              · rw [if_pos hall, hfalse] at h1
                exact (Option.some.inj h1).symm
              · rw [if_neg hall] at h1
                exact (Option.some.inj h1).symm
            have e2 : r2 = false := by
              by_cases hall : letters.all (fun x => decide (x ∈ (pyLower b).data)) = true
              · rw [if_pos hall, hfalse2] at h2
                exact (Option.some.inj h2).symm
              · rw [if_neg hall] at h2
                exact (Option.some.inj h2).symm
            rw [e1, e2]

theorem coverage_only_constrains_word_a_wit :
    is_valid_anagram_pair (["ab", "cd"]) (("ab", "cd")) (['z']) = some false :=
  (coverage_only_constrains_word_a).1 (["ab", "cd"]) ("ab") ("cd") (['z']) ('z')
    (by decide) (by decide) (by decide)

